import Mathlib

/-!
Verification of the repository-archiving pipeline in cmd/archive/main.go.

Go strings are modelled as `List Char`; Go `time.Time` wall-clock values
are modelled by the `Time` structure below.  Each definition is a direct
translation of the corresponding Go function (or of the behaviour of the
standard-library / go-github function it calls).
-/

set_option autoImplicit false

/-- Model of Go `strings.Cut(s, sep)` for a single-character separator, as
used in `insertRepos` on `"/"` and `":"`: splits at the first occurrence of
`sep`, returning (before, after, found); when `sep` is absent it returns
(s, "", false). -/
def stringsCut (sep : Char) : List Char → List Char × List Char × Bool
  | [] => ([], [], false)
  | c :: cs =>
    if c = sep then ([], cs, true)
    else (c :: (stringsCut sep cs).1, (stringsCut sep cs).2.1, (stringsCut sep cs).2.2)

/-- Model of Go `strings.Split(s, sep)` for a single-character separator:
the empty string yields one empty field, and each separator occurrence
starts a new field. -/
def stringsSplit (sep : Char) : List Char → List (List Char)
  | [] => [[]]
  | c :: cs =>
    if c = sep then [] :: stringsSplit sep cs
    else
      match stringsSplit sep cs with
      | [] => [[c]]
      | t :: ts => (c :: t) :: ts

/-- The topic-flattening loop of `insertRepos` (main.go lines 158-165):
starting from the empty string, each topic either replaces an accumulator
shorter than one character or is appended after a `,`. -/
def flattenTopics (topics : List (List Char)) : List Char :=
  topics.foldl (fun acc v => if acc.length < 1 then v else acc ++ ',' :: v) []

/-- Concatenation of a list of strings (helper for reasoning about the
flattened topic string). -/
def joinAll : List (List Char) → List Char
  | [] => []
  | t :: ts => t ++ joinAll ts

/-- Wall-clock fields of a Go `time.Time` value: calendar date,
time of day, and the timezone offset of its location in seconds. -/
structure Time where
  year : Nat
  month : Nat
  day : Nat
  hour : Nat
  minute : Nat
  second : Nat
  offset : Int
deriving DecidableEq

/-- The zero `time.Time`: January 1 of year 1, 00:00:00 UTC. -/
def zeroTime : Time := ⟨1, 1, 1, 0, 0, 0, 0⟩

/-- Character for a decimal digit. -/
def digitChar (d : Nat) : Char := Char.ofNat (48 + d)

/-- Decimal rendering of a number zero-padded to width 4, as Go's
`Format` layout element `2006` produces for the year. -/
def pad4 (n : Nat) : List Char :=
  if n < 10000 then
    [digitChar (n / 1000 % 10), digitChar (n / 100 % 10), digitChar (n / 10 % 10), digitChar (n % 10)]
  else Nat.toDigits 10 n

/-- Decimal rendering of a number zero-padded to width 2, as Go's
`Format` layout elements `01` and `02` produce for month and day. -/
def pad2 (n : Nat) : List Char :=
  if n < 100 then [digitChar (n / 10 % 10), digitChar (n % 10)]
  else Nat.toDigits 10 n

/-- Model of Go `t.Format("2006-01-02")` (main.go lines 167-168): the
wall-clock year, month and day, dash-separated; the time of day and the
offset are not read. -/
def formatDate (t : Time) : List Char :=
  pad4 t.year ++ '-' :: (pad2 t.month ++ '-' :: pad2 t.day)

/-- The raw repository fields consumed by `insertRepos` (struct `data` in
main.go). -/
structure RawData where
  id : Int
  fullName : List Char
  description : List Char
  htmlURL : List Char
  homepage : List Char
  topics : List (List Char)
  createdAt : Time
  updatedAt : Time
deriving DecidableEq

/-- The struct `repo` in main.go: a name plus the raw data. -/
structure Repo where
  name : List Char
  data : RawData
deriving DecidableEq

/-- A row as inserted into and read back from the `repos` table (struct
`jsonRepo` in main.go, in JSON field order). -/
structure JsonRepo where
  owner : List Char
  name : List Char
  category : List Char
  description : List Char
  htmlurl : List Char
  homepage : List Char
  topics : List Char
  createdAt : List Char
  updatedAt : List Char
  uid : Int
deriving DecidableEq

/-- The normalization performed by `insertRepos` (main.go lines 146-208):
the row it binds to the INSERT parameters, in column order. -/
def insertedRow (r : Repo) : JsonRepo :=
  { owner := (stringsCut '/' r.data.fullName).1
    name := (stringsCut '/' r.data.fullName).2.1
    category := (stringsCut ':' r.data.description).1
    description := (stringsCut ':' r.data.description).2.1
    htmlurl := r.data.htmlURL
    homepage := r.data.homepage
    topics := flattenTopics r.data.topics
    createdAt := formatDate r.data.createdAt
    updatedAt := formatDate r.data.updatedAt
    uid := r.data.id }

/-! ### Lemmas about `stringsCut` -/

theorem stringsCut_mem (sep : Char) (s : List Char) (h : sep ∈ s) :
    (stringsCut sep s).1 ++ sep :: (stringsCut sep s).2.1 = s := by
  induction s with
  | nil => simp at h
  | cons c cs ih =>
    by_cases hc : c = sep
    · subst hc; simp [stringsCut]
    · have h1 : sep ∈ cs := by
        rcases List.mem_cons.mp h with h2 | h2
        · exact absurd h2.symm hc
        · exact h2
      simp [stringsCut, hc, ih h1]

theorem stringsCut_not_mem (sep : Char) (s : List Char) (h : sep ∉ s) :
    (stringsCut sep s).1 = s ∧ (stringsCut sep s).2.1 = [] := by
  induction s with
  | nil => exact ⟨rfl, rfl⟩
  | cons c cs ih =>
    have hc : ¬ c = sep := fun e => h (by simp [e])
    have h1 : sep ∉ cs := fun hm => h (List.mem_cons_of_mem _ hm)
    have := ih h1
    simp [stringsCut, hc, this.1, this.2]

/-! ### Lemmas about `stringsSplit` and `flattenTopics` -/

theorem stringsSplit_not_mem (sep : Char) (t : List Char) (h : sep ∉ t) :
    stringsSplit sep t = [t] := by
  induction t with
  | nil => rfl
  | cons c cs ih =>
    have hc : ¬ c = sep := fun e => h (by simp [e])
    have h1 : sep ∉ cs := fun hm => h (List.mem_cons_of_mem _ hm)
    simp [stringsSplit, hc, ih h1]

theorem stringsSplit_append (sep : Char) (t rest : List Char) (h : sep ∉ t) :
    stringsSplit sep (t ++ sep :: rest) = t :: stringsSplit sep rest := by
  induction t with
  | nil => simp [stringsSplit]
  | cons c cs ih =>
    have hc : ¬ c = sep := fun e => h (by simp [e])
    have h1 : sep ∉ cs := fun hm => h (List.mem_cons_of_mem _ hm)
    simp [stringsSplit, hc, ih h1]

theorem flattenTopics_foldl (ts : List (List Char)) :
    ∀ acc : List Char, acc ≠ [] →
      ts.foldl (fun acc v => if acc.length < 1 then v else acc ++ ',' :: v) acc
        = acc ++ joinAll (ts.map (fun v => ',' :: v)) := by
  induction ts with
  | nil => intro acc _; simp [joinAll]
  | cons v vs ih =>
    intro acc h
    have hlen : ¬ acc.length < 1 := by
      cases acc with
      | nil => exact absurd rfl h
      | cons a as => simp
    rw [List.foldl_cons, if_neg hlen, ih (acc ++ ',' :: v) (by simp)]
    simp [joinAll]

theorem stringsSplit_joinAll (ts : List (List Char)) :
    ∀ t : List Char, ',' ∉ t → (∀ x ∈ ts, ',' ∉ x) →
      stringsSplit ',' (t ++ joinAll (ts.map (fun v => ',' :: v))) = t :: ts := by
  induction ts with
  | nil =>
    intro t ht _
    simp [joinAll, stringsSplit_not_mem ',' t ht]
  | cons v vs ih =>
    intro t ht hall
    have step : t ++ joinAll ((v :: vs).map (fun v => ',' :: v))
        = t ++ ',' :: (v ++ joinAll (vs.map (fun v => ',' :: v))) := by
      simp [joinAll]
    rw [step, stringsSplit_append ',' t _ ht,
      ih v (hall v (by simp)) (fun x hx => hall x (by simp [hx]))]

/-! ### Date-string parsing (to state the date-truncation property) -/

/-- Decimal digit test on a character. -/
def isDigitChar (c : Char) : Bool := 48 ≤ c.toNat && c.toNat ≤ 57

/-- Numeric value of a decimal digit character. -/
def digitVal (c : Char) : Nat := c.toNat - 48

/-- Parser for strings of the exact shape `YYYY-MM-DD`: succeeds exactly on
ten characters, digits in positions 1-4, 6-7 and 9-10 and dashes in
positions 5 and 8, returning the year, month and day values. -/
def parseDate (s : List Char) : Option (Nat × Nat × Nat) :=
  match s with
  | [y3, y2, y1, y0, s1, m1, m0, s2, d1, d0] =>
    if s1 = '-' ∧ s2 = '-'
        ∧ (isDigitChar y3 && isDigitChar y2 && isDigitChar y1 && isDigitChar y0
            && isDigitChar m1 && isDigitChar m0 && isDigitChar d1 && isDigitChar d0) = true then
      some (digitVal y3 * 1000 + digitVal y2 * 100 + digitVal y1 * 10 + digitVal y0,
            digitVal m1 * 10 + digitVal m0,
            digitVal d1 * 10 + digitVal d0)
    else none
  | _ => none

theorem digitChar_isDigit (d : Nat) (h : d < 10) : isDigitChar (digitChar d) = true := by
  interval_cases d <;> rfl

theorem digitChar_val (d : Nat) (h : d < 10) : digitVal (digitChar d) = d := by
  interval_cases d <;> rfl

/-! ### The Fetcher (`ghRepos` and `parseGH`, main.go lines 281-334) -/

/-- Model of `github.Timestamp` (a struct embedding a `time.Time`). -/
structure Timestamp where
  time : Time
deriving DecidableEq

/-- Model of `(*Timestamp).GetTime`: the generated accessor returns nil
only for a nil receiver; `parseGH` calls it on an addressable local value,
so at those call sites the receiver is never nil and the result is always
a non-nil pointer to the embedded time. -/
def Timestamp.getTime (t : Timestamp) : Option Time := some t.time

/-- The fields of a `*github.Repository` read by `parseGH`, after the
nil-safe `Get*` accessors for the scalar fields; the `CreatedAt` and
`UpdatedAt` fields are pointers and stay optional. -/
structure GHRepo where
  id : Int
  name : List Char
  fullName : List Char
  description : List Char
  htmlURL : List Char
  homepage : List Char
  topics : List (List Char)
  createdAt : Option Timestamp
  updatedAt : Option Timestamp
deriving DecidableEq

/-- Model of `(*Repository).GetCreatedAt`: the pointed-to timestamp, or the
zero timestamp when the field is nil. -/
def GHRepo.getCreatedAt (g : GHRepo) : Timestamp := g.createdAt.getD ⟨zeroTime⟩

/-- Model of `(*Repository).GetUpdatedAt`: the pointed-to timestamp, or the
zero timestamp when the field is nil. -/
def GHRepo.getUpdatedAt (g : GHRepo) : Timestamp := g.updatedAt.getD ⟨zeroTime⟩

/-- Model of `parseGH` (main.go lines 281-304): builds one `Repo` per
listed repository, dereferencing the pointers returned by `GetTime`; a nil
pointer there would be a runtime panic, modelled as `none`. -/
def parseGH : Repo → List Repo → List GHRepo → Option (List Repo)
  | _, arr, [] => some arr
  | _, arr, v :: vs =>
    match (GHRepo.getCreatedAt v).getTime with
    | none => none
    | some createdAt =>
      match (GHRepo.getUpdatedAt v).getTime with
      | none => none
      | some updatedAt =>
        parseGH
          ⟨v.name, ⟨v.id, v.fullName, v.description, v.htmlURL, v.homepage, v.topics, createdAt, updatedAt⟩⟩
          (arr ++ [⟨v.name, ⟨v.id, v.fullName, v.description, v.htmlURL, v.homepage, v.topics, createdAt, updatedAt⟩⟩])
          vs

/-- The string constant `"public"` passed as the repository type. -/
def publicType : List Char := ['p', 'u', 'b', 'l', 'i', 'c']

/-- The string constant `"created"` passed as the sort key. -/
def createdSort : List Char := ['c', 'r', 'e', 'a', 't', 'e', 'd']

/-- The account name `"permalik"` fetched by `main`. -/
def permalik : List Char := ['p', 'e', 'r', 'm', 'a', 'l', 'i', 'k']

/-- One repository-listing request as issued by `ghRepos`: the account,
whether the org or the user endpoint is used, and the type, sort and
paging options. -/
structure RepoListRequest where
  account : List Char
  isOrg : Bool
  repoType : List Char
  sort : List Char
  page : Nat
  perPage : Nat
deriving DecidableEq

/-- The page of an account's full repository list served for a request
(GitHub pages are 1-indexed). -/
def listPage (all : List GHRepo) (req : RepoListRequest) : List GHRepo :=
  (all.drop ((req.page - 1) * req.perPage)).take req.perPage

/-- The zero value of `repo`, the `r` passed into `parseGH` by `ghRepos`. -/
def emptyRepo : Repo := ⟨[], ⟨0, [], [], [], [], [], zeroTime, zeroTime⟩⟩

/-- Model of `ghRepos` (main.go lines 306-334) against an account whose
full repository list is `all`: both the org and the user branch issue one
request with `Page: 1, PerPage: 25`, type `"public"` and sort `"created"`,
call `log.Fatalf` when the returned page is empty (modelled as `none`),
and otherwise return `parseGH` of that single page.  The second component
collects the requests issued. -/
def ghRepos (all : List GHRepo) (name : List Char) (isOrg : Bool) :
    Option (List Repo) × List RepoListRequest :=
  if (listPage all ⟨name, isOrg, publicType, createdSort, 1, 25⟩).length ≤ 0 then
    (none, [⟨name, isOrg, publicType, createdSort, 1, 25⟩])
  else
    (parseGH emptyRepo [] (listPage all ⟨name, isOrg, publicType, createdSort, 1, 25⟩),
     [⟨name, isOrg, publicType, createdSort, 1, 25⟩])

/-! ### The run's store operations (`main`, main.go lines 56-101) -/

/-- A mutating or reading operation executed against the store. -/
inductive StoreOp where
  | drop : StoreOp
  | create : StoreOp
  | insert : JsonRepo → StoreOp
  | selectAll : StoreOp
deriving DecidableEq

/-- The sequence of store operations `main` executes, as a function of the
account's full repository list: `ghRepos` aborts the process (fatal log or
panic) before the database is touched when it yields no result; otherwise
`main` drops and recreates the table, inserts each normalized row, and
reads everything back. -/
def runStoreOps (all : List GHRepo) : List StoreOp :=
  match (ghRepos all permalik false).1 with
  | none => []
  | some permalikRepos =>
    StoreOp.drop :: StoreOp.create ::
      (((if permalikRepos.length > 0 then permalikRepos else []).map
          fun r => StoreOp.insert (insertedRow r)) ++ [StoreOp.selectAll])

/-! ### The Exporter (`selectRepos`, main.go lines 210-279) -/

/-- A JSON value, as produced by `encoding/json`. -/
inductive Json where
  | null : Json
  | str : List Char → Json
  | num : Int → Json
  | arr : List Json → Json
  | obj : List (List Char × Json) → Json

def Json.isArr : Json → Bool
  | .arr _ => true
  | _ => false

def Json.elems : Json → List Json
  | .arr es => es
  | _ => []

def Json.keys : Json → List (List Char)
  | .obj kvs => kvs.map (fun kv => kv.1)
  | _ => []

def ownerKey : List Char := ['o', 'w', 'n', 'e', 'r']

def nameKey : List Char := ['n', 'a', 'm', 'e']

def categoryKey : List Char := ['c', 'a', 't', 'e', 'g', 'o', 'r', 'y']

def descriptionKey : List Char := ['d', 'e', 's', 'c', 'r', 'i', 'p', 't', 'i', 'o', 'n']

def htmlurlKey : List Char := ['h', 't', 'm', 'l', 'u', 'r', 'l']

def homepageKey : List Char := ['h', 'o', 'm', 'e', 'p', 'a', 'g', 'e']

def topicsKey : List Char := ['t', 'o', 'p', 'i', 'c', 's']

def createdAtKey : List Char := ['c', 'r', 'e', 'a', 't', 'e', 'd', 'A', 't']

def updatedAtKey : List Char := ['u', 'p', 'd', 'a', 't', 'e', 'd', 'A', 't']

def uidKey : List Char := ['u', 'i', 'd']

/-- The ten JSON field names of a serialized row, in `jsonRepo` struct
(and hence output) order. -/
def jsonFieldNames : List (List Char) :=
  [ownerKey, nameKey, categoryKey, descriptionKey, htmlurlKey, homepageKey,
   topicsKey, createdAtKey, updatedAtKey, uidKey]

/-- The JSON object `encoding/json` produces for one `jsonRepo` value. -/
def jsonRepoToJson (r : JsonRepo) : Json :=
  Json.obj
    [(ownerKey, Json.str r.owner),
     (nameKey, Json.str r.name),
     (categoryKey, Json.str r.category),
     (descriptionKey, Json.str r.description),
     (htmlurlKey, Json.str r.htmlurl),
     (homepageKey, Json.str r.homepage),
     (topicsKey, Json.str r.topics),
     (createdAtKey, Json.str r.createdAt),
     (updatedAtKey, Json.str r.updatedAt),
     (uidKey, Json.num r.uid)]

/-- The JSON value `selectRepos` marshals and prints: the rows read back
are accumulated by `append` into a slice declared `var repos []jsonRepo`,
which stays nil when no row is scanned, and `json.Marshal` renders a nil
slice as the JSON literal `null`, not as an array. -/
def marshalRepos : List JsonRepo → Json
  | [] => Json.null
  | r :: rs => Json.arr ((r :: rs).map jsonRepoToJson)

/-! ### Concrete inputs used by witnesses and counterexamples -/

/-- The end-to-end example repository from the specification: raw input
with id 1, full name `acme/widget`, description `tools:a widget`, topics
`a` and `b`, and the two example timestamps, both UTC. -/
def exampleRepo : Repo :=
  ⟨['w', 'i', 'd', 'g', 'e', 't'],
   ⟨1,
    ['a', 'c', 'm', 'e', '/', 'w', 'i', 'd', 'g', 'e', 't'],
    ['t', 'o', 'o', 'l', 's', ':', 'a', ' ', 'w', 'i', 'd', 'g', 'e', 't'],
    [], [],
    [['a'], ['b']],
    ⟨2020, 1, 2, 3, 4, 5, 0⟩,
    ⟨2021, 2, 3, 4, 5, 6, 0⟩⟩⟩

/-- A repository whose full name `acme` contains no slash. -/
def noSlashRepo : Repo :=
  ⟨[], ⟨2, ['a', 'c', 'm', 'e'], [], [], [], [], zeroTime, zeroTime⟩⟩

/-! ### Claim theorems -/

/-- C1 (counterexample): the topic list `["", "b"]` contains no comma in
any label, yet the flattening loop of `insertRepos` drops the leading
empty label (`len(topics) < 1` still holds after it), so joining yields
`"b"` and splitting on `,` yields `["b"]`, not the original list. -/
theorem topics_roundtrip_cex :
    (',' ∉ ([] : List Char)) ∧ (',' ∉ ['b'])
      ∧ stringsSplit ',' (flattenTopics [[], ['b']]) ≠ [[], ['b']] := by
  decide

/-- C1 (amended): joining a topic list with `,` as `insertRepos` does and
then splitting on `,` reproduces the original list whenever the list is
nonempty, its first label is nonempty, and no label contains `,`. -/
theorem topics_roundtrip (t : List Char) (ts : List (List Char)) (h0 : t ≠ [])
    (h : ∀ x ∈ t :: ts, ',' ∉ x) :
    stringsSplit ',' (flattenTopics (t :: ts)) = t :: ts := by
  have ht : ',' ∉ t := h t (by simp)
  have hflat : flattenTopics (t :: ts) = t ++ joinAll (ts.map (fun v => ',' :: v)) := by
    have h0' : ([] : List Char).length < 1 := by simp
    rw [flattenTopics, List.foldl_cons, if_pos h0']
    exact flattenTopics_foldl ts t h0
  rw [hflat]
  exact stringsSplit_joinAll ts t ht (fun x hx => h x (by simp [hx]))

/-- C1 (witness): the round trip at the concrete topic list `["a", "b"]`. -/
theorem topics_roundtrip_wit :
    stringsSplit ',' (flattenTopics [['a'], ['b']]) = [['a'], ['b']] :=
  topics_roundtrip ['a'] [['b']] (by decide) (by decide)

/-- C2: the category and description produced by `insertRepos` satisfy the
description-split invariant: when the raw description contains `:`,
`category ++ ":" ++ description` equals the raw description; when it does
not, `category` is the whole raw description and `description` is empty. -/
theorem description_split (r : Repo) :
    (':' ∈ r.data.description →
      (insertedRow r).category ++ ':' :: (insertedRow r).description = r.data.description)
    ∧ (':' ∉ r.data.description →
      (insertedRow r).category = r.data.description ∧ (insertedRow r).description = []) := by
  constructor
  · intro h
    have := stringsCut_mem ':' r.data.description h
    simpa [insertedRow] using this
  · intro h
    have := stringsCut_not_mem ':' r.data.description h
    exact ⟨by simp [insertedRow, this.1], by simp [insertedRow, this.2]⟩

/-- C2 (witness): the reconstruction at the example description
`tools:a widget`. -/
theorem description_split_wit :
    (insertedRow exampleRepo).category ++ ':' :: (insertedRow exampleRepo).description
      = exampleRepo.data.description :=
  (description_split exampleRepo).1 (by decide)

/-- C3: for every full name containing `/`, the owner and name produced by
`insertRepos` satisfy `owner ++ "/" ++ name = fullName`. -/
theorem name_split (r : Repo) (h : '/' ∈ r.data.fullName) :
    (insertedRow r).owner ++ '/' :: (insertedRow r).name = r.data.fullName := by
  have := stringsCut_mem '/' r.data.fullName h
  simpa [insertedRow] using this

/-- C3 (witness): the reconstruction at the example full name
`acme/widget`. -/
theorem name_split_wit :
    (insertedRow exampleRepo).owner ++ '/' :: (insertedRow exampleRepo).name
      = exampleRepo.data.fullName :=
  name_split exampleRepo (by decide)

/-- C9: for every full name containing no `/`, `insertRepos` assigns the
whole full name to the owner and the empty string to the name. -/
theorem name_no_slash (r : Repo) (h : '/' ∉ r.data.fullName) :
    (insertedRow r).owner = r.data.fullName ∧ (insertedRow r).name = [] := by
  have := stringsCut_not_mem '/' r.data.fullName h
  exact ⟨by simp [insertedRow, this.1], by simp [insertedRow, this.2]⟩

/-- C9 (witness): the slash-free full name `acme` maps to owner `acme`
and empty name. -/
theorem name_no_slash_wit :
    (insertedRow noSlashRepo).owner = noSlashRepo.data.fullName
      ∧ (insertedRow noSlashRepo).name = [] :=
  name_no_slash noSlashRepo (by decide)

/-- C4: the end-to-end example: normalizing the raw input with id 1, full
name `acme/widget`, description `tools:a widget`, topics `["a","b"]` and
the two example timestamps yields owner `acme`, name `widget`, category
`tools`, description `a widget`, topics `a,b`, dates `2020-01-02` and
`2021-02-03`, and uid 1. -/
theorem normalize_example :
    insertedRow exampleRepo =
      ⟨['a', 'c', 'm', 'e'],
       ['w', 'i', 'd', 'g', 'e', 't'],
       ['t', 'o', 'o', 'l', 's'],
       ['a', ' ', 'w', 'i', 'd', 'g', 'e', 't'],
       [], [],
       ['a', ',', 'b'],
       ['2', '0', '2', '0', '-', '0', '1', '-', '0', '2'],
       ['2', '0', '2', '1', '-', '0', '2', '-', '0', '3'],
       1⟩ := by
  decide

/-- C5: for every timestamp whose calendar fields lie in the range the
layout `2006-01-02` zero-pads (year below 10000, month and day below 100,
which covers every RFC 3339 timestamp the API delivers), the formatted
string parses back as exactly the pattern `YYYY-MM-DD` carrying that
timestamp's calendar date, and the string is unchanged when the time of
day and the offset are zeroed, so neither is retained. -/
theorem date_truncation (t : Time) (hy : t.year < 10000) (hm : t.month < 100)
    (hd : t.day < 100) :
    parseDate (formatDate t) = some (t.year, t.month, t.day)
    ∧ formatDate t = formatDate ⟨t.year, t.month, t.day, 0, 0, 0, 0⟩ := by
  refine ⟨?_, rfl⟩
  have h3 : t.year / 1000 % 10 < 10 := Nat.mod_lt _ (by norm_num)
  have h2 : t.year / 100 % 10 < 10 := Nat.mod_lt _ (by norm_num)
  have h1 : t.year / 10 % 10 < 10 := Nat.mod_lt _ (by norm_num)
  have h0 : t.year % 10 < 10 := Nat.mod_lt _ (by norm_num)
  have g1 : t.month / 10 % 10 < 10 := Nat.mod_lt _ (by norm_num)
  have g0 : t.month % 10 < 10 := Nat.mod_lt _ (by norm_num)
  have f1 : t.day / 10 % 10 < 10 := Nat.mod_lt _ (by norm_num)
  have f0 : t.day % 10 < 10 := Nat.mod_lt _ (by norm_num)
  rw [formatDate, pad4, pad2, pad2, if_pos hy, if_pos hm, if_pos hd]
  simp only [List.cons_append, List.nil_append]
  rw [parseDate]
  rw [if_pos ⟨rfl, rfl, by
    rw [digitChar_isDigit _ h3, digitChar_isDigit _ h2, digitChar_isDigit _ h1,
      digitChar_isDigit _ h0, digitChar_isDigit _ g1, digitChar_isDigit _ g0,
      digitChar_isDigit _ f1, digitChar_isDigit _ f0]
    rfl⟩]
  rw [digitChar_val _ h3, digitChar_val _ h2, digitChar_val _ h1, digitChar_val _ h0,
    digitChar_val _ g1, digitChar_val _ g0, digitChar_val _ f1, digitChar_val _ f0]
  simp only [Option.some.injEq, Prod.mk.injEq]
  omega

/-- C5 (witness): the concrete timestamp 2020-01-02T03:04:05 at offset
+60s formats to a string parsing back as the date (2020, 1, 2). -/
theorem date_truncation_wit :
    (2020 < 10000)
      ∧ parseDate (formatDate ⟨2020, 1, 2, 3, 4, 5, 60⟩) = some (2020, 1, 2) :=
  ⟨by decide, (date_truncation ⟨2020, 1, 2, 3, 4, 5, 60⟩ (by decide) (by decide) (by decide)).1⟩

/-! ### Fetcher and run-level lemmas -/

theorem parseGH_some (ghData : List GHRepo) :
    ∀ (r : Repo) (arr : List Repo),
      ∃ l, parseGH r arr ghData = some l ∧ l.length = arr.length + ghData.length := by
  induction ghData with
  | nil => intro r arr; exact ⟨arr, rfl, by simp⟩
  | cons v vs ih =>
    intro r arr
    obtain ⟨l, hl, hlen⟩ :=
      ih ⟨v.name, ⟨v.id, v.fullName, v.description, v.htmlURL, v.homepage, v.topics,
            (GHRepo.getCreatedAt v).time, (GHRepo.getUpdatedAt v).time⟩⟩
        (arr ++ [⟨v.name, ⟨v.id, v.fullName, v.description, v.htmlURL, v.homepage, v.topics,
            (GHRepo.getCreatedAt v).time, (GHRepo.getUpdatedAt v).time⟩⟩])
    refine ⟨l, ?_, ?_⟩
    · simpa [parseGH, Timestamp.getTime] using hl
    · simp at hlen
      simp [hlen]
      omega

/-- C6: if the fetched page is empty, `ghRepos` terminates the run with a
fatal log before `main` reaches the database, so no drop, create or insert
(nor the read-back) is executed and the store keeps its prior state. -/
theorem empty_fetch_guard (all : List GHRepo)
    (h : listPage all ⟨permalik, false, publicType, createdSort, 1, 25⟩ = []) :
    runStoreOps all = [] := by
  simp [runStoreOps, ghRepos, h]

/-- C6 (witness): an account with no repositories at all serves an empty
page, and the run executes no store operation. -/
theorem empty_fetch_guard_wit :
    listPage [] ⟨permalik, false, publicType, createdSort, 1, 25⟩ = ([] : List GHRepo)
      ∧ runStoreOps [] = [] :=
  ⟨rfl, empty_fetch_guard [] rfl⟩

/-- C7: for every account (whatever its full repository list, name, and
kind), `ghRepos` issues exactly one listing request, with type `public`,
sort `created`, page 1 and page size 25, and whatever it returns holds at
most those 25 first-page repositories. -/
theorem single_page_fetch (all : List GHRepo) (name : List Char) (isOrg : Bool) :
    (ghRepos all name isOrg).2 = [⟨name, isOrg, publicType, createdSort, 1, 25⟩]
    ∧ ((ghRepos all name isOrg).1.getD []).length ≤ 25 := by
  constructor
  · by_cases h : (listPage all ⟨name, isOrg, publicType, createdSort, 1, 25⟩).length ≤ 0 <;>
      simp [ghRepos, h]
  · by_cases h : (listPage all ⟨name, isOrg, publicType, createdSort, 1, 25⟩).length ≤ 0
    · simp [ghRepos, h]
    · obtain ⟨l, hl, hlen⟩ :=
        parseGH_some (listPage all ⟨name, isOrg, publicType, createdSort, 1, 25⟩) emptyRepo []
      have hpage : (listPage all ⟨name, isOrg, publicType, createdSort, 1, 25⟩).length ≤ 25 := by
        simp [listPage, List.length_take]
      simp only [List.length_nil, Nat.zero_add] at hlen
      simp [ghRepos, h, hl]
      omega

/-- C10 (counterexample): a listed repository carrying neither timestamp is
parsed without a panic: `GetCreatedAt`/`GetUpdatedAt` substitute the zero
timestamp and `GetTime`, called on an addressable value, never returns a
nil pointer, so the dereference succeeds and yields the zero time. -/
theorem parse_missing_timestamp_cex :
    parseGH emptyRepo []
        [⟨7, ['x'], ['o', '/', 'x'], [], [], [], [], none, none⟩]
      = some [⟨['x'], ⟨7, ['o', '/', 'x'], [], [], [], [], zeroTime, zeroTime⟩⟩] := by
  decide

/-- C10 (amended): the parse step dereferences the created-at and
updated-at pointers unconditionally, but the pointers it dereferences come
from `GetTime` on addressable `Timestamp` values and are never nil, so
parsing is total (panic-free) for every input, with no precondition on the
timestamps; a repository missing a timestamp yields the zero time. -/
theorem parse_total (ghData : List GHRepo) (r : Repo) (arr : List Repo) :
    (parseGH r arr ghData).isSome = true := by
  obtain ⟨l, hl, _⟩ := parseGH_some ghData r arr
  simp [hl]

/-- A sample exported row used by the export witness. -/
def sampleRow : JsonRepo :=
  ⟨['a'], ['b'], ['c'], ['d'], [], [], ['t'], ['x'], ['y'], 1⟩

/-- C8 (counterexample): with zero read-back rows the slice the exporter
marshals is nil, and `json.Marshal` renders it as the JSON literal `null`,
not as a JSON array. -/
theorem export_array_cex : (marshalRepos []).isArr = false := by
  decide

/-- C8 (amended): for every nonempty collection of read-back rows, the
exporter serializes the complete collection as a single JSON array with
one element per row, each element an object carrying exactly the ten
fields owner, name, category, description, htmlurl, homepage, topics,
createdAt, updatedAt and uid; the empty collection is instead rendered as
the JSON literal `null`. -/
theorem export_array (rows : List JsonRepo) (h : rows ≠ []) :
    (marshalRepos rows).isArr = true
    ∧ (marshalRepos rows).elems.length = rows.length
    ∧ ∀ e ∈ (marshalRepos rows).elems, e.keys = jsonFieldNames := by
  match rows, h with
  | r :: rs, _ =>
    refine ⟨rfl, by simp [marshalRepos, Json.elems], ?_⟩
    intro e he
    simp [marshalRepos, Json.elems] at he
    rcases he with he | ⟨x, _, he⟩ <;> subst he <;> rfl

/-- C8 (witness): the one-row collection `[sampleRow]` is exported as a
JSON array with one element. -/
theorem export_array_wit :
    (marshalRepos [sampleRow]).isArr = true
      ∧ (marshalRepos [sampleRow]).elems.length = [sampleRow].length :=
  ⟨(export_array [sampleRow] (List.cons_ne_nil _ _)).1,
   (export_array [sampleRow] (List.cons_ne_nil _ _)).2.1⟩
